import Mathlib

/-!
Verification of the docmatica linter (src/main.go).

The development shallowly embeds the linter's pure logic in Lean:

* the Go standard-library path helpers the code uses
  (`filepath.Ext`, `filepath.Base`, `filepath.Dir`, `filepath.Clean`,
  `strings.Fields`, `strings.TrimPrefix`) are translated over `List Char`,
  treating a Go string as its character sequence;
* the three lint rules `checkFileType`, `checkRstInChapters` and
  `checkAnchors` are translated from main.go; Go string indexing
  (`s[a:b]`, which panics when the bounds are invalid) is modelled by an
  `Option`-valued slice so that absence of panics is a provable statement;
* the goroutine/channel wiring of `main` (WaitGroup, `lintErrors`
  channel, `anyErrors` verdict channel) is modelled as a small labelled
  transition system over which the ordering guarantees are proved.
-/

namespace Docmatica

/-- Whitespace test used by Go's `strings.Fields` (unicode.IsSpace on the
    characters that can occur in the Latin-1 range). -/
def goIsSpace (c : Char) : Bool :=
  c == ' ' || c == '\t' || c == '\n' || c == '\x0B' || c == '\x0C' ||
  c == '\r' || c == '\x85' || c == '\xA0'

/-- Accumulator-based splitter behind `fieldsGo`; `acc` holds the current
    field's characters in reverse order. -/
def fieldsAux : List Char → List Char → List String
  | [], acc => if acc.isEmpty then [] else [String.mk acc.reverse]
  | c :: cs, acc =>
    if goIsSpace c then
      if acc.isEmpty then fieldsAux cs []
      else String.mk acc.reverse :: fieldsAux cs []
    else fieldsAux cs (c :: acc)

/-- Go `strings.Fields`: split a string around runs of whitespace. -/
def fieldsGo (s : String) : List String := fieldsAux s.data []

/-- Drop `p` from the front of `s`, or `none` when `p` is not a prefix. -/
def dropPrefixL : List Char → List Char → Option (List Char)
  | s, [] => some s
  | [], _ :: _ => none
  | c :: s, p :: ps => if c == p then dropPrefixL s ps else none

/-- Go `strings.HasPrefix`. -/
def goStartsWith (s pre : String) : Bool := (dropPrefixL s.data pre.data).isSome

/-- Go `strings.TrimPrefix`: remove the prefix when present, otherwise
    return the string unchanged. -/
def goTrimPrefix (s pre : String) : String :=
  match dropPrefixL s.data pre.data with
  | some r => String.mk r
  | none => s

/-- Split a character list on `/`, keeping empty segments, as Go's
    `strings.Split(s, "/")` does. -/
def splitOnSlash : List Char → List (List Char)
  | [] => [[]]
  | c :: cs =>
    if c == '/' then [] :: splitOnSlash cs
    else
      match splitOnSlash cs with
      | p :: ps => (c :: p) :: ps
      | [] => [[c]]

/-- Join path segments with `/`. -/
def joinSlash (ps : List (List Char)) : List Char :=
  (List.intersperse ['/'] ps).flatten

/-- Go `filepath.Clean` (unix separators): drop empty and `.` segments,
    resolve `..` against the segment stack, never backtracking past a kept
    `..`, and dropping unresolvable `..` in rooted paths. -/
def goClean (path : String) : String :=
  if path.data.isEmpty then "."
  else
    let rooted := match path.data with
      | c :: _ => c == '/'
      | [] => false
    let parts := (splitOnSlash path.data).filter fun p => !p.isEmpty && p != ['.']
    let stack := parts.foldl (fun st p =>
      if p == ['.', '.'] then
        match st with
        | q :: rest => if q != ['.', '.'] then rest else p :: q :: rest
        | [] => if rooted then [] else [p]
      else p :: st) ([] : List (List Char))
    let body := joinSlash stack.reverse
    if rooted then (if body.isEmpty then "/" else String.mk ('/' :: body))
    else (if body.isEmpty then "." else String.mk body)

/-- Go `filepath.Dir`: the cleaned prefix of the path up to and including
    its final separator (empty prefix cleans to `.`). -/
def goDir (path : String) : String :=
  goClean (String.mk (path.data.reverse.dropWhile (fun c => c != '/')).reverse)

/-- Go `filepath.Base`: final element of the path after stripping trailing
    separators; `.` for the empty path, `/` for all-separator paths. -/
def goBase (path : String) : String :=
  if path.data.isEmpty then "."
  else
    let name := (path.data.reverse.dropWhile (fun c => c == '/')).takeWhile
      (fun c => c != '/')
    if name.isEmpty then "/" else String.mk name.reverse

/-- Translation of main.go `parent`: name of the directory above the end of
    the path (`filepath.Base(filepath.Dir(path))`). -/
def parent (path : String) : String := goBase (goDir path)

/-- Go `filepath.Ext`: the suffix beginning at the final dot in the final
    slash-separated element, empty when there is no dot. -/
def goExt (path : String) : String :=
  let seg := path.data.reverse.takeWhile (fun c => c != '/')
  let pre := seg.takeWhile (fun c => c != '.')
  if pre.length == seg.length then "" else String.mk ('.' :: pre.reverse)

/-- Apostrophe character, used to spell the literal messages of main.go. -/
def apos : String := String.mk [Char.ofNat 39]

/-- Metadata of a visited file-system entry: the parts of Go's
    `os.FileInfo` that main.go consults. -/
structure FileInfo where
  name : String
  isDir : Bool
deriving DecidableEq

/-- Violation message of `checkFileType` (main.go line 191). -/
def fileTypeMsg : String :=
  "Does not have a .rst file extension or a .png or .svg extension while nested in an "
    ++ apos ++ "images" ++ apos ++ " directory."

/-- Translation of main.go `checkFileType` (lines 178-192): directories
    pass; `.rst` files pass; `.png`/`.svg` files pass when the parent
    directory is named `images`; everything else fails. -/
def checkFileType (path : String) (info : FileInfo) : Option String :=
  if info.isDir then none
  else if goExt path == ".rst" then none
  else if parent path == "images" then
    (if goExt path == ".png" || goExt path == ".svg" then none
     else some fileTypeMsg)
  else some fileTypeMsg

/-- Violation message of `checkRstInChapters` (main.go line 217). -/
def notFoundMsg : String := "Not found in chapter directory."

/-- Translation of main.go `checkRstInChapters` (lines 198-218). -/
def checkRstInChapters (path : String) (info : FileInfo) : Option String :=
  if parent path != "archivematica-docs" &&
     parent path != "admin-manual" &&
     parent path != "getting-started" &&
     parent path != "user-manual" &&
     parent path != "images" then none
  else if parent path == "archivematica-docs" &&
          (info.name == "index.rst" || info.name == "contents.rst") then none
  else if (parent path == "admin-manual" ||
           parent path == "getting-started" ||
           parent path == "user-manual") &&
          info.name == "index.rst" then none
  else some notFoundMsg

/-- Message sent by `checkAnchors` when the first line is not an anchor
    definition (main.go line 275). -/
def anchorMissingMsg : String := "Anchor not found at top of page."

/-- Message sent by `checkAnchors` when the anchor was found but no
    back-reference line was (main.go line 277). -/
def backrefMissingMsg : String :=
  apos ++ "Back to top" ++ apos ++ " link to anchor not found."

/-- Go string slice `s[a:b]` over `Int` bounds; `none` models the runtime
    panic Go raises on out-of-range bounds. -/
def goSlice? (s : String) (a b : Int) : Option String :=
  if 0 ≤ a ∧ a ≤ b ∧ b ≤ (s.data.length : Int) then
    some (String.mk ((s.data.drop a.toNat).take (b.toNat - a.toNat)))
  else none

/-- Go string slice `s[a:]`. -/
def goSliceFrom? (s : String) (a : Int) : Option String :=
  goSlice? s a (s.data.length : Int)

/-- Loop state of main.go `checkAnchors` (lines 250-253). -/
structure AnchorSt where
  firstLine : Bool
  foundAnchor : Bool
  matchingAnchor : Bool
  anchorText : String
deriving DecidableEq

/-- Expected back-to-top line for a captured anchor label
    (main.go line 268: `fmt.Sprintf` of a fixed template). -/
def backRefLine (anchorText : String) : String :=
  ":ref:`Back to the top <" ++ anchorText ++ ">`"

/-- One iteration of the `for line := range lines` loop of `checkAnchors`
    (main.go lines 254-273), with Go's short-circuit evaluation of the
    first-line condition made explicit; `none` models a slicing panic. -/
def anchorStep? (st : AnchorSt) (line : String) : Option AnchorSt :=
  let step1 : Option AnchorSt :=
    if st.firstLine then
      match fieldsGo line with
      | [f0, f1] =>
        if f0 == ".." then
          match goSlice? f1 0 1 with
          | none => none
          | some s1 =>
            if s1 == "_" then
              match goSliceFrom? f1 ((f1.data.length : Int) - 1) with
              | none => none
              | some s2 =>
                if s2 == ":" then
                  match goSlice? f1 1 ((f1.data.length : Int) - 1) with
                  | none => none
                  | some mid =>
                    some ⟨false, true, st.matchingAnchor, mid⟩
                else some ⟨false, st.foundAnchor, st.matchingAnchor, st.anchorText⟩
            else some ⟨false, st.foundAnchor, st.matchingAnchor, st.anchorText⟩
        else some ⟨false, st.foundAnchor, st.matchingAnchor, st.anchorText⟩
      | _ => some ⟨false, st.foundAnchor, st.matchingAnchor, st.anchorText⟩
    else some st
  match step1 with
  | none => none
  | some st1 =>
    if st1.foundAnchor then
      if !st1.matchingAnchor then
        if line == backRefLine st1.anchorText then
          some ⟨st1.firstLine, st1.foundAnchor, true, st1.anchorText⟩
        else some st1
      else some st1
    else some st1

/-- Run the `checkAnchors` loop over the whole line sequence. -/
def runAnchors? : AnchorSt → List String → Option AnchorSt
  | st, [] => some st
  | st, l :: ls =>
    match anchorStep? st l with
    | none => none
    | some st1 => runAnchors? st1 ls

/-- Initial loop state of `checkAnchors` (main.go lines 250-253). -/
def initAnchorSt : AnchorSt := ⟨true, false, false, ""⟩

/-- Translation of main.go `checkAnchors` (lines 248-279): the outer
    `Option` is `none` exactly when some iteration panics, the inner
    `Option String` is the error sent on the result channel (`none` when
    the document passes). -/
def checkAnchors? (lines : List String) : Option (Option String) :=
  (runAnchors? initAnchorSt lines).map fun st =>
    if !st.foundAnchor then some anchorMissingMsg
    else if !st.matchingAnchor then some backrefMissingMsg
    else none

/-- One lint violation: the `pathError` value sent on the `lintErrors`
    channel (main.go lines 15-18). -/
structure Violation where
  path : String
  msg : String
deriving DecidableEq

/-- Translation of main.go `check` (lines 158-174) for a readable file
    whose content is `lines`: the violations sent to `lintErrors`, in
    emission order.  `checkFileContent` (lines 220-244) is modelled by
    feeding the file's lines to `checkAnchors?`; the outer `Option` is
    `none` when the anchor loop would panic. -/
def checkRun? (path : String) (info : FileInfo) (lines : List String) :
    Option (List Violation) :=
  let base : List Violation :=
    match checkFileType path info with
    | some e => [⟨path, e⟩]
    | none => []
  if goExt path == ".rst" then
    let withChapters : List Violation :=
      base ++
        match checkRstInChapters path info with
        | some e => [⟨path, e⟩]
        | none => []
    match checkAnchors? lines with
    | none => none
    | some aErr =>
      some (withChapters ++
        match aErr with
        | some e => [⟨path, e⟩]
        | none => [])
  else some base

/-- Translation of main.go `relPath` (lines 282-284). -/
def relPath (path root : String) : String := "." ++ goTrimPrefix path root

/-- One output line of the reporting goroutine (main.go line 135), without
    the trailing newline `fmt.Printf` appends. -/
def reportLine (pe : Violation) (root : String) : String :=
  relPath pe.path root ++ ": " ++ pe.msg

/-- Tripwire computed by the reporting goroutine (main.go lines 132-145):
    starts false and is set on every received violation. -/
def tripwire (vs : List Violation) : Bool :=
  vs.foldl (fun _ _ => true) false

/-- Process exit code of main.go (lines 152-155): 1 when the tripwire was
    set, 0 otherwise. -/
def exitCode (vs : List Violation) : Nat :=
  if tripwire vs then 1 else 0

/-- Hidden-entry rule of the walk callback (main.go line 90): skip when
    the entry's name starts with `.` and is not the literal name `.`. -/
def skipsHidden (name : String) : Bool :=
  goStartsWith name "." && name != "."

/-- Abstract state of the Driver/Aggregator wiring of main.go
    (lines 121-155): `active` counts dispatched `check` goroutines that
    have not yet run `wg.Done`, `sent` counts violations handed across the
    unbuffered `lintErrors` channel (a rendezvous: the reporting loop
    receives each one at hand-over), `closed` records `close(lintErrors)`,
    `verdictSent` the reporting goroutine's send on `anyErrors`, and
    `verdictRead` the driver's receive `<-anyErrors`. -/
structure PipeState where
  active : Nat
  sent : Nat
  closed : Bool
  verdictSent : Bool
  verdictRead : Bool
deriving DecidableEq

/-- Interleaving steps of main.go's goroutines.  Each constructor mirrors
    one program action together with the program-order facts that enable
    it: a violation send happens inside a still-active `check` goroutine
    (before its deferred `wg.Done`, line 159); `wg.Done` finishes a unit;
    `close(lintErrors)` (line 149) follows `wg.Wait` (line 148), so it
    requires `active = 0`; the reporting loop's verdict send (lines
    141-144) follows the exit of its `range` loop, which Go only allows
    after the channel is closed; the driver's verdict receive (line 152)
    follows the close in driver program order. -/
inductive PipeStep : PipeState → PipeState → Prop
  | deliver (a v : Nat) (c vs vr : Bool) :
      PipeStep ⟨a + 1, v, c, vs, vr⟩ ⟨a + 1, v + 1, c, vs, vr⟩
  | finish (a v : Nat) (c vs vr : Bool) :
      PipeStep ⟨a + 1, v, c, vs, vr⟩ ⟨a, v, c, vs, vr⟩
  | close (v : Nat) (vs vr : Bool) :
      PipeStep ⟨0, v, false, vs, vr⟩ ⟨0, v, true, vs, vr⟩
  | verdict (a v : Nat) (vr : Bool) :
      PipeStep ⟨a, v, true, false, vr⟩ ⟨a, v, true, true, vr⟩
  | read (a v : Nat) :
      PipeStep ⟨a, v, true, true, false⟩ ⟨a, v, true, true, true⟩

/-- Reachability in the pipeline transition system. -/
def PipeReaches : PipeState → PipeState → Prop :=
  Relation.ReflTransGen PipeStep

/-- Initial pipeline state once the walk has dispatched `n` units. -/
def pipeInit (n : Nat) : PipeState := ⟨n, 0, false, false, false⟩

/-- Chapter-root directory names named by the spec: the top-level docs
    root plus each manual's root. -/
def chapterRoots : List String :=
  ["archivematica-docs", "admin-manual", "getting-started", "user-manual"]

/-- Anchor-definition reading of a first line, following the spec's words:
    the line splits into exactly two whitespace-separated fields, the
    literal `..` and `_<label>:`; returns the captured label. -/
def anchorLabel? (line : String) : Option String :=
  match fieldsGo line with
  | [f0, f1] =>
    match f1.data with
    | [] => none
    | c :: rest =>
      if f0 == ".." && c == '_' && rest.getLast? == some ':' then
        some (String.mk rest.dropLast)
      else none
  | _ => none

/-- Verdict of the anchor checker as the spec states it: an empty document
    or a first line that is not an anchor definition fails with the
    anchor-missing message; otherwise the document passes exactly when
    some line equals the back-reference line for the captured label, and
    fails with the back-reference-missing message when none does. -/
def anchorSpec (lines : List String) : Option String :=
  match lines with
  | [] => some anchorMissingMsg
  | first :: _ =>
    match anchorLabel? first with
    | none => some anchorMissingMsg
    | some label =>
      if lines.any (fun l => l == backRefLine label) then none
      else some backrefMissingMsg

lemma foldl_const_true (l : List Violation) :
    l.foldl (fun _ _ => true) true = true := by
  induction l with
  | nil => rfl
  | cons v rest ih => simpa [List.foldl] using ih

/-- C5: the process exit code is a pure function of whether the violation
    set is empty — 0 for an empty violation list, 1 otherwise. -/
theorem c5_exit_code (vs : List Violation) :
    exitCode vs = if vs = [] then 0 else 1 := by
  cases vs with
  | nil => rfl
  | cons v rest =>
    simp [exitCode, tripwire, List.foldl, foldl_const_true]

/-- C3: the file-type rule passes every directory; it passes a file
    exactly when its extension is `.rst`, or its parent directory is named
    `images` and its extension is `.png` or `.svg`; every failing file
    gets the fixed message naming the required combinations. -/
theorem c3_file_type_rule (path : String) (info : FileInfo) :
    (checkFileType path info = none ↔
      (info.isDir = true ∨ goExt path = ".rst" ∨
        (parent path = "images" ∧
          (goExt path = ".png" ∨ goExt path = ".svg")))) ∧
    (checkFileType path info = none ∨
      checkFileType path info = some fileTypeMsg) := by
  unfold checkFileType
  by_cases hd : info.isDir = true
  · simp [hd]
  · simp only [Bool.not_eq_true] at hd
    by_cases h1 : goExt path = ".rst"
    · simp [hd, h1]
    · by_cases h2 : parent path = "images"
      · by_cases h3 : goExt path = ".png"
        · simp [hd, h1, h2, h3]
        · by_cases h4 : goExt path = ".svg" <;> simp [hd, h1, h2, h3, h4]
      · simp [hd, h1, h2]

/-- C2 counterexample: a markup file directly inside an `images` directory
    is outside every chapter root, yet the placement rule rejects it. -/
theorem c2_counterexample :
    goExt "docs/images/foo.rst" = ".rst" ∧
    parent "docs/images/foo.rst" = "images" ∧
    chapterRoots.contains "images" = false ∧
    checkRstInChapters "docs/images/foo.rst" ⟨"foo.rst", false⟩ =
      some notFoundMsg := by
  refine ⟨by decide, by decide, by decide, by decide⟩

/-- C2 amended: for every markup file whose parent directory is neither a
    chapter root nor named `images`, the placement rule passes. -/
theorem c2_placement_outside_roots (path : String) (info : FileInfo)
    (_hext : goExt path = ".rst")
    (hroot : parent path ∉ chapterRoots) (himg : parent path ≠ "images") :
    checkRstInChapters path info = none := by
  unfold checkRstInChapters
  simp only [chapterRoots, List.mem_cons, List.not_mem_nil, or_false,
    not_or] at hroot
  obtain ⟨h1, h2, h3, h4⟩ := hroot
  simp [h1, h2, h3, h4, himg]

theorem c2_witness :
    checkRstInChapters "a/chapter01/foo.rst" ⟨"foo.rst", false⟩ = none :=
  c2_placement_outside_roots "a/chapter01/foo.rst" ⟨"foo.rst", false⟩
    (by decide) (by decide) (by decide)

/-- C4: directly inside a chapter root, `index.rst` always passes,
    `contents.rst` passes exactly when the parent is the top-level docs
    root, and every other file fails with the fixed message. -/
theorem c4_placement_in_roots (path : String) (info : FileInfo)
    (_hext : goExt path = ".rst") (hroot : parent path ∈ chapterRoots) :
    checkRstInChapters path info =
      if info.name = "index.rst" then none
      else if info.name = "contents.rst" ∧ parent path = "archivematica-docs"
        then none
      else some notFoundMsg := by
  unfold checkRstInChapters
  simp only [chapterRoots, List.mem_cons, List.not_mem_nil, or_false]
    at hroot
  by_cases hi : info.name = "index.rst"
  · rcases hroot with h | h | h | h <;> simp [h, hi]
  · by_cases hc : info.name = "contents.rst"
    · rcases hroot with h | h | h | h <;> simp [h, hi, hc]
    · rcases hroot with h | h | h | h <;> simp [h, hi, hc]

theorem c4_witness :
    checkRstInChapters "user-manual/foo.rst" ⟨"foo.rst", false⟩ =
      some notFoundMsg := by
  have h := c4_placement_in_roots "user-manual/foo.rst" ⟨"foo.rst", false⟩
    (by decide) (by decide)
  simpa using h

/-- C7 counterexample: a scan root whose base name starts with `.` (here
    `/home/.docs`, whose walk entry carries the name `.docs`) is itself
    skipped by the hidden-entry rule, although the claim says the scan
    root is never skipped by it. -/
theorem c7_counterexample :
    goBase "/home/.docs" = ".docs" ∧ skipsHidden ".docs" = true := by
  refine ⟨by decide, by decide⟩

/-- C7 amended: the hidden-entry rule skips an entry exactly when its name
    starts with `.`, except for the literal name `.` — an exemption that
    covers the scan root only when the root path's base name is `.`; for
    every other name (in particular every non-root entry, whose name is a
    real directory-entry name and never `.`) the rule is exactly the
    starts-with-dot test. -/
theorem c7_hidden_skip :
    (∀ name : String, name ≠ "." →
      skipsHidden name = goStartsWith name ".") ∧
    skipsHidden "." = false := by
  constructor
  · intro name hne
    unfold skipsHidden
    have hb : (name != ".") = true := by simpa [bne_iff_ne] using hne
    simp [hb]
  · decide

theorem c7_witness : skipsHidden ".git" = goStartsWith ".git" "." :=
  c7_hidden_skip.1 ".git" (by decide)

lemma dropPrefixL_append (p t : List Char) :
    dropPrefixL (p ++ t) p = some t := by
  induction p with
  | nil => cases t <;> rfl
  | cons c cs ih => simp [dropPrefixL, ih]

/-- C9 counterexample: when the reported path equals the scan root (a scan
    root that is itself a file failing the type rule is reported), the
    relative path is the bare `.`, which does not begin with `./`. -/
theorem c9_counterexample :
    checkFileType "/docs/foo.txt" ⟨"foo.txt", false⟩ = some fileTypeMsg ∧
    relPath "/docs/foo.txt" "/docs/foo.txt" = "." ∧
    goStartsWith (relPath "/docs/foo.txt" "/docs/foo.txt") "./" = false := by
  refine ⟨by decide, by decide, by decide⟩

/-- C9 amended: every violation line is the relative path, a colon and a
    space, then the message; and whenever the reported path extends the
    scan root by a separator, the relative path begins with `./`. -/
theorem c9_report_format (root rest msg : String) :
    relPath (root ++ "/" ++ rest) root = "./" ++ rest ∧
    reportLine ⟨root ++ "/" ++ rest, msg⟩ root =
      "./" ++ rest ++ ": " ++ msg := by
  have hrel : relPath (root ++ "/" ++ rest) root = "./" ++ rest := by
    apply String.ext
    simp [relPath, goTrimPrefix, String.data_append, List.append_assoc,
      dropPrefixL_append]
  refine ⟨hrel, ?_⟩
  apply String.ext
  simp [reportLine, hrel, String.data_append]

lemma eq_empty_of_data_nil {s : String} (h : s.data = []) : s = "" :=
  String.ext (by rw [h])

lemma stringMk_ne_empty {l : List Char} (h : l ≠ []) : String.mk l ≠ "" := by
  intro he
  exact h (by simpa using congrArg String.data he)

lemma mem_fieldsAux_ne_empty :
    ∀ (cs acc : List Char) (f : String), f ∈ fieldsAux cs acc → f ≠ "" := by
  intro cs
  induction cs with
  | nil =>
    intro acc f hf
    cases acc with
    | nil => simp [fieldsAux] at hf
    | cons a as =>
      simp only [fieldsAux, List.isEmpty_cons, Bool.false_eq_true, if_false,
        List.mem_singleton] at hf
      subst hf
      exact stringMk_ne_empty (by simp)
  | cons c cs ih =>
    intro acc f hf
    by_cases hs : goIsSpace c
    · cases acc with
      | nil =>
        simp only [fieldsAux, hs, List.isEmpty_nil, if_true] at hf
        exact ih [] f hf
      | cons a as =>
        simp only [fieldsAux, hs, List.isEmpty_cons, Bool.false_eq_true,
          if_true, if_false, List.mem_cons] at hf
        rcases hf with hf | hf
        · subst hf
          exact stringMk_ne_empty (by simp)
        · exact ih [] f hf
    · simp only [fieldsAux, hs, Bool.false_eq_true, if_false] at hf
      exact ih (c :: acc) f hf

lemma mem_fieldsGo_ne_empty {line f : String} (hf : f ∈ fieldsGo line) :
    f ≠ "" :=
  mem_fieldsAux_ne_empty line.data [] f hf

lemma goSlice?_head (f : String) (c : Char) (cs : List Char)
    (h : f.data = c :: cs) : goSlice? f 0 1 = some (String.mk [c]) := by
  unfold goSlice?
  rw [if_pos, h]
  · simp
  · refine ⟨le_refl 0, by norm_num, ?_⟩
    rw [h]
    simp only [List.length_cons]
    push_cast
    omega

lemma goSliceFrom?_single (f : String) (c : Char) (h : f.data = [c]) :
    goSliceFrom? f ((f.data.length : Int) - 1) = some (String.mk [c]) := by
  unfold goSliceFrom? goSlice?
  rw [h]
  norm_num

lemma drop_cons_append (c : Char) (cs ds : List Char) :
    (c :: cs ++ ds).drop (cs.length + 1) = ds := by
  have hsplit : c :: cs ++ ds = (c :: cs) ++ ds := rfl
  rw [hsplit]
  simp

lemma goSliceFrom?_last (f : String) (c d : Char) (cs : List Char)
    (h : f.data = c :: cs ++ [d]) :
    goSliceFrom? f ((f.data.length : Int) - 1) = some (String.mk [d]) := by
  unfold goSliceFrom? goSlice?
  rw [h]
  have hlen : ((c :: cs ++ [d]).length : Int) = (cs.length : Int) + 2 := by
    simp only [List.length_cons, List.length_append, List.length_nil]
    omega
  rw [if_pos]
  · have e1 : (((c :: cs ++ [d]).length : Int) - 1).toNat = cs.length + 1 := by
      rw [hlen]; omega
    have e2 : ((c :: cs ++ [d]).length : Int).toNat = cs.length + 2 := by
      rw [hlen]; omega
    rw [e1, e2]
    have e3 : cs.length + 2 - (cs.length + 1) = 1 := by omega
    rw [e3, drop_cons_append]
    rfl
  · rw [hlen]
    refine ⟨by omega, by omega, by omega⟩

lemma goSlice?_mid (f : String) (c d : Char) (cs : List Char)
    (h : f.data = c :: cs ++ [d]) :
    goSlice? f 1 ((f.data.length : Int) - 1) = some (String.mk cs) := by
  unfold goSlice?
  rw [h]
  have hlen : ((c :: cs ++ [d]).length : Int) = (cs.length : Int) + 2 := by
    simp only [List.length_cons, List.length_append, List.length_nil]
    omega
  rw [if_pos]
  · have e1 : (((c :: cs ++ [d]).length : Int) - 1).toNat = cs.length + 1 := by
      rw [hlen]; omega
    rw [e1]
    have e2 : (1 : Int).toNat = 1 := rfl
    rw [e2]
    have e3 : cs.length + 1 - 1 = cs.length := by omega
    rw [e3]
    have e4 : (c :: cs ++ [d]).drop 1 = cs ++ [d] := rfl
    rw [e4, List.take_left]
  · rw [hlen]
    refine ⟨by omega, by omega, by omega⟩

lemma stringMk_eq_iff (l : List Char) (s : String) :
    (String.mk l == s) = true ↔ l = s.data := by
  constructor
  · intro h
    have := eq_of_beq h
    simpa using congrArg String.data this
  · intro h
    subst h
    simp

/-- The first iteration of the `checkAnchors` loop, started in the initial
    state, never panics and classifies the line exactly as `anchorLabel?`
    does, recording in `matchingAnchor` whether the first line itself is
    already the back-reference line. -/
lemma anchorStep_init (line : String) :
    anchorStep? initAnchorSt line =
      some (match anchorLabel? line with
        | some lab => ⟨false, true, line == backRefLine lab, lab⟩
        | none => ⟨false, false, false, ""⟩) := by
  unfold anchorStep? anchorLabel? initAnchorSt
  cases hf : fieldsGo line with
  | nil => simp
  | cons f0 tl =>
    cases tl with
    | nil => simp
    | cons f1 tl2 =>
      cases tl2 with
      | cons f2 tl3 => simp
      | nil =>
        have hmem : f1 ∈ fieldsGo line := by rw [hf]; simp
        have hne : f1.data ≠ [] := fun hd =>
          mem_fieldsGo_ne_empty hmem (eq_empty_of_data_nil hd)
        by_cases h0 : (f0 == "..") = true
        · obtain ⟨c, cs, hdata⟩ : ∃ c cs, f1.data = c :: cs := by
            cases hd : f1.data with
            | nil => exact absurd hd hne
            | cons c cs => exact ⟨c, cs, rfl⟩
          simp only [goSlice?_head f1 c cs hdata]
          by_cases hc : c = '_'
          · subst hc
            have hs1 : (String.mk ['_'] == "_") = true := by decide
            rcases List.eq_nil_or_concat cs with hcs | ⟨cs', d, hcs⟩
            <;> [skip; rw [List.concat_eq_append] at hcs]
            · subst hcs
              simp only [goSliceFrom?_single f1 '_' hdata]
              have hs2 : (String.mk ['_'] == ":") = false := by decide
              simp [h0, hs1, hs2, hdata]
            · subst hcs
              simp only [goSliceFrom?_last f1 '_' d cs' hdata]
              by_cases hd2 : d = ':'
              · subst hd2
                have hs2 : (String.mk [':'] == ":") = true := by decide
                simp only [goSlice?_mid f1 '_' ':' cs' hdata]
                simp only [h0, hs1, hs2, if_true, Bool.true_and, hdata]
                by_cases hl : line = backRefLine (String.mk cs')
                · simp [hl]
                · simp [hl]
              · have hs2 : (String.mk [d] == ":") = false := by
                  rw [Bool.eq_false_iff]
                  intro hdd
                  rw [stringMk_eq_iff] at hdd
                  have h2 : (":" : String).data = [':'] := rfl
                  rw [h2] at hdd
                  exact hd2 (List.head_eq_of_cons_eq hdd)
                simp [h0, hs1, hs2, hdata, hd2]
          · have hs1 : (String.mk [c] == "_") = false := by
              rw [Bool.eq_false_iff]
              intro hdd
              rw [stringMk_eq_iff] at hdd
              have h2 : ("_" : String).data = ['_'] := rfl
              rw [h2] at hdd
              exact hc (List.head_eq_of_cons_eq hdd)
            simp [h0, hs1, hdata, hc]
        · simp only [Bool.not_eq_true] at h0
          cases hd : f1.data with
          | nil => simp [h0, hd]
          | cons c cs => simp [h0, hd]

/-- Once the first line has been consumed without finding an anchor, the
    loop state never changes again. -/
lemma runAnchors_no_anchor (m : Bool) (t : String) (ls : List String) :
    runAnchors? ⟨false, false, m, t⟩ ls = some ⟨false, false, m, t⟩ := by
  induction ls with
  | nil => rfl
  | cons l ls ih =>
    have hstep : anchorStep? ⟨false, false, m, t⟩ l =
        some ⟨false, false, m, t⟩ := by
      simp [anchorStep?]
    simp [runAnchors?, hstep, ih]

/-- Once the anchor is found, the rest of the loop only turns
    `matchingAnchor` on, exactly when some remaining line equals the
    back-reference line for the captured label. -/
lemma runAnchors_found (m : Bool) (lab : String) (ls : List String) :
    runAnchors? ⟨false, true, m, lab⟩ ls =
      some ⟨false, true, m || ls.any (fun l => l == backRefLine lab), lab⟩ := by
  induction ls generalizing m with
  | nil => simp [runAnchors?]
  | cons l ls ih =>
    by_cases hm : m = true
    · subst hm
      have hstep : anchorStep? ⟨false, true, true, lab⟩ l =
          some ⟨false, true, true, lab⟩ := by
        simp [anchorStep?]
      simp [runAnchors?, hstep, ih]
    · simp only [Bool.not_eq_true] at hm
      subst hm
      by_cases hl : l = backRefLine lab
      · subst hl
        have hstep : anchorStep? ⟨false, true, false, lab⟩ (backRefLine lab) =
            some ⟨false, true, true, lab⟩ := by
          simp [anchorStep?]
        simp [runAnchors?, hstep, ih]
      · have hstep : anchorStep? ⟨false, true, false, lab⟩ l =
            some ⟨false, true, false, lab⟩ := by
          simp [anchorStep?, hl]
        simp [runAnchors?, hstep, ih, hl]

/-- Characterization of the whole `checkAnchors` loop: it never panics,
    and its verdict is exactly the spec-side `anchorSpec`. -/
lemma checkAnchors_eq_spec (lines : List String) :
    checkAnchors? lines = some (anchorSpec lines) := by
  cases lines with
  | nil => rfl
  | cons first rest =>
    unfold checkAnchors? anchorSpec
    have hrun :
        runAnchors? initAnchorSt (first :: rest) =
          match anchorStep? initAnchorSt first with
          | none => none
          | some st1 => runAnchors? st1 rest := rfl
    rw [hrun, anchorStep_init]
    cases hl : anchorLabel? first with
    | none =>
      simp only [hl, runAnchors_no_anchor, Option.map_some]
      rfl
    | some lab =>
      simp only [hl, runAnchors_found, Option.map_some]
      have hany : ((first == backRefLine lab) ||
          rest.any (fun l => l == backRefLine lab)) =
          (first :: rest).any (fun l => l == backRefLine lab) := by
        simp [List.any_cons]
      rw [hany]
      by_cases hb :
          ((first :: rest).any (fun l => l == backRefLine lab)) = true
      · simp [hb]
      · simp only [Bool.not_eq_true] at hb
        simp [hb]

/-- C1: the anchor checker passes exactly when the first line splits into
    the two whitespace-separated fields `..` and `_<label>:` and some line
    of the document equals the literal back-reference line for the
    captured label; a non-matching or absent first line yields the
    anchor-missing message (in particular the empty document, without
    crashing), and a matched anchor without a back-reference line yields
    the back-reference-missing message. -/
theorem c1_anchor_checker (lines : List String) :
    checkAnchors? lines = some (anchorSpec lines) :=
  checkAnchors_eq_spec lines

/-- C10: the anchor checker is total over arbitrary input lines — the
    fields produced by whitespace splitting are never empty, so the Go
    byte-indexing of the second field (modelled by the `Option`-valued
    slices inside `checkAnchors?`) never goes out of bounds, and the
    checker reaches a verdict on every input. -/
theorem c10_anchor_total :
    (∀ line f : String, f ∈ fieldsGo line → f ≠ "") ∧
    (∀ lines : List String, (checkAnchors? lines).isSome = true) := by
  constructor
  · intro line f hf
    exact mem_fieldsGo_ne_empty hf
  · intro lines
    rw [checkAnchors_eq_spec]
    rfl

theorem c10_witness :
    (".." : String) ≠ "" ∧ (checkAnchors? [".. _x:"]).isSome = true :=
  ⟨c10_anchor_total.1 ".. _x:" ".." (by decide), c10_anchor_total.2 [".. _x:"]⟩

/-- Possible results of the file-type rule: pass, or its one message. -/
lemma checkFileType_msgs (path : String) (info : FileInfo) :
    checkFileType path info = none ∨
    checkFileType path info = some fileTypeMsg := by
  unfold checkFileType
  split_ifs <;> simp

/-- Possible results of the placement rule: pass, or its one message. -/
lemma checkRst_msgs (path : String) (info : FileInfo) :
    checkRstInChapters path info = none ∨
    checkRstInChapters path info = some notFoundMsg := by
  unfold checkRstInChapters
  split_ifs <;> simp

/-- Possible verdicts of the anchor checker. -/
lemma anchorSpec_msgs (lines : List String) :
    anchorSpec lines = none ∨
    anchorSpec lines = some anchorMissingMsg ∨
    anchorSpec lines = some backrefMissingMsg := by
  unfold anchorSpec
  cases lines with
  | nil => simp
  | cons f r =>
    cases hl : anchorLabel? f with
    | none => simp [hl]
    | some lab =>
      simp only [hl]
      split_ifs <;> simp

/-- Core of the C8 refutation: no file can fail both the file-type rule
    and the anchor rule in one evaluation, because `check` runs the content
    check only on `.rst` files and those always pass the type rule. -/
lemma checkRun_no_type_and_anchor (path : String) (info : FileInfo)
    (lines : List String) (vs : List Violation)
    (hrun : checkRun? path info lines = some vs)
    (htype : Violation.mk path fileTypeMsg ∈ vs) :
    ¬(Violation.mk path anchorMissingMsg ∈ vs ∨
      Violation.mk path backrefMissingMsg ∈ vs) := by
  intro hanchor
  unfold checkRun? at hrun
  by_cases hext : (goExt path == ".rst") = true
  · -- a markup file passes the type rule, so htype is impossible
    have hty : checkFileType path info = none := by
      unfold checkFileType
      by_cases hd : info.isDir <;> simp [hd, hext]
    rw [hty, checkAnchors_eq_spec lines] at hrun
    simp only [hext, if_true] at hrun
    have hvs := Option.some.inj hrun
    rw [← hvs] at htype
    rcases checkRst_msgs path info with hch | hch <;>
      rcases anchorSpec_msgs lines with ha | ha | ha <;>
      rw [hch, ha] at htype <;>
      simp only [List.nil_append, List.append_nil, List.mem_append,
        List.mem_singleton, List.not_mem_nil, or_false, false_or,
        Violation.mk.injEq, true_and] at htype
    all_goals first
      | exact htype
      | exact absurd htype (by decide)
  · -- otherwise only the type rule ran, and it never emits anchor messages
    simp only [hext, if_false] at hrun
    have hvs := Option.some.inj hrun
    rw [← hvs] at hanchor
    rcases checkFileType_msgs path info with hty | hty <;>
      rw [hty] at hanchor <;>
      simp only [List.mem_singleton, List.not_mem_nil, or_self,
        Violation.mk.injEq, true_and] at hanchor
    all_goals first
      | exact hanchor
      | exact absurd hanchor (by decide)

/-- C8 counterexample (negation of the claim's example): there is no
    input — no path, entry metadata and file content — whose single rule
    evaluation contains both the file-type violation and an anchor
    violation, because the content check runs only on markup-extension
    files and those always pass the type rule. -/
theorem c8_counterexample :
    (∃ (path : String) (info : FileInfo) (lines : List String)
        (vs : List Violation),
      checkRun? path info lines = some vs ∧
      Violation.mk path fileTypeMsg ∈ vs ∧
      (Violation.mk path anchorMissingMsg ∈ vs ∨
       Violation.mk path backrefMissingMsg ∈ vs)) = False := by
  apply eq_false
  rintro ⟨path, info, lines, vs, hrun, htype, hanchor⟩
  exact checkRun_no_type_and_anchor path info lines vs hrun htype hanchor

/-- C8 amended: rule evaluation can produce multiple violations for the
    same path — here a file directly under the docs root with empty
    content fails both the placement rule and the anchor rule — but never
    the type rule and the anchor rule together. -/
theorem c8_multiple_violations :
    checkRun? "archivematica-docs/foo.rst" ⟨"foo.rst", false⟩ [] =
      some [⟨"archivematica-docs/foo.rst", notFoundMsg⟩,
            ⟨"archivematica-docs/foo.rst", anchorMissingMsg⟩] := by
  decide

/-- Invariant of the pipeline: the channel is closed only once every unit
    has terminated, the verdict is sent only after the close, and the
    verdict is read only after it was sent. -/
def PipeInv (s : PipeState) : Prop :=
  (s.closed = true → s.active = 0) ∧
  (s.verdictSent = true → s.closed = true) ∧
  (s.verdictRead = true → s.verdictSent = true)

lemma pipeInv_init (n : Nat) : PipeInv (pipeInit n) := by
  refine ⟨?_, ?_, ?_⟩ <;> intro h <;> exact absurd h (by simp [pipeInit])

lemma pipeInv_step {s t : PipeState} (hs : PipeInv s) (hstep : PipeStep s t) :
    PipeInv t := by
  obtain ⟨h1, h2, h3⟩ := hs
  cases hstep with
  | deliver a v c vs vr =>
    refine ⟨fun hc => ?_, h2, h3⟩
    have h0 := h1 hc
    simp at h0
  | finish a v c vs vr =>
    refine ⟨fun hc => ?_, h2, h3⟩
    have h0 := h1 hc
    simp at h0
  | close v vs vr => exact ⟨fun _ => rfl, fun _ => rfl, h3⟩
  | verdict a v vr =>
    exact ⟨h1, fun _ => rfl, fun _ => rfl⟩
  | read a v => exact ⟨h1, h2, fun _ => rfl⟩

lemma pipeInv_reaches {n : Nat} {s : PipeState}
    (h : PipeReaches (pipeInit n) s) : PipeInv s := by
  induction h with
  | refl => exact pipeInv_init n
  | tail _ hstep ih => exact pipeInv_step ih hstep

/-- C6: in every reachable pipeline state, once the verdict has been sent
    to (or read by) the Driver, the channel has been closed and every
    dispatched unit has terminated; after the close no further violation
    can be handed over (so the Aggregator had drained its intake before
    delivering the verdict); and while units are still active the channel
    is open and the Aggregator's consuming loop can always accept another
    violation. -/
theorem c6_verdict_ordering (n : Nat) (s : PipeState)
    (hreach : PipeReaches (pipeInit n) s) :
    ((s.verdictSent = true ∨ s.verdictRead = true) →
      s.closed = true ∧ s.active = 0) ∧
    (∀ t, PipeStep s t → s.closed = true → t.sent = s.sent) ∧
    (0 < s.active →
      s.closed = false ∧
      PipeStep s ⟨s.active, s.sent + 1, s.closed, s.verdictSent,
        s.verdictRead⟩) := by
  obtain ⟨h1, h2, h3⟩ := pipeInv_reaches hreach
  refine ⟨?_, ?_, ?_⟩
  · intro hv
    have hsent : s.verdictSent = true := by
      rcases hv with hv | hv
      · exact hv
      · exact h3 hv
    have hc := h2 hsent
    exact ⟨hc, h1 hc⟩
  · intro t hstep hc
    cases hstep with
    | deliver a v c vs vr =>
      have := h1 hc
      simp at this
    | finish a v c vs vr => rfl
    | close v vs vr => rfl
    | verdict a v vr => rfl
    | read a v => rfl
  · intro ha
    have hc : s.closed = false := by
      cases hcl : s.closed with
      | false => rfl
      | true => exact absurd (h1 hcl) (by omega)
    refine ⟨hc, ?_⟩
    obtain ⟨a, hA⟩ : ∃ a, s.active = a + 1 := ⟨s.active - 1, by omega⟩
    obtain ⟨A, S, C, VS, VR⟩ := s
    simp only at hA hc
    subst hA hc
    exact PipeStep.deliver a S false VS VR

lemma c6_trace :
    PipeReaches (pipeInit 1) ⟨0, 0, true, true, true⟩ := by
  have s1 : PipeStep (pipeInit 1) ⟨0, 0, false, false, false⟩ :=
    PipeStep.finish 0 0 false false false
  have s2 : PipeStep ⟨0, 0, false, false, false⟩ ⟨0, 0, true, false, false⟩ :=
    PipeStep.close 0 false false
  have s3 : PipeStep ⟨0, 0, true, false, false⟩ ⟨0, 0, true, true, false⟩ :=
    PipeStep.verdict 0 0 false
  have s4 : PipeStep ⟨0, 0, true, true, false⟩ ⟨0, 0, true, true, true⟩ :=
    PipeStep.read 0 0
  exact Relation.ReflTransGen.tail
    (Relation.ReflTransGen.tail
      (Relation.ReflTransGen.tail
        (Relation.ReflTransGen.tail Relation.ReflTransGen.refl s1) s2) s3) s4

theorem c6_witness :
    (⟨0, 0, true, true, true⟩ : PipeState).closed = true ∧
    (⟨0, 0, true, true, true⟩ : PipeState).active = 0 :=
  (c6_verdict_ordering 1 ⟨0, 0, true, true, true⟩ c6_trace).1 (Or.inr rfl)

end Docmatica
